import Mathlib

/-!
# Verification of the fabulae turn-by-turn audio pipeline

Shallow embedding of the fabulae repository (ghchinoy/fabulae, Go).
Strings are modelled as `List Char`; byte slices as `List Nat`; the external
text-to-speech calls and the filesystem are modelled as explicit oracles.

The embedded functions follow:
  * `src/core/fabulae.go` — `Fabulae`, `processAudioTurns`,
    `stripParticipantTags`, `generateSSMLfromConversation`, `Speak`,
    `synthesize`, `synthesizeWithVoice`;
  * `src/fabulae-cli/main.go` — `combineWavFiles`.
-/

set_option maxRecDepth 4000

namespace Fabulae

/-- Convert a Lean string literal to the `List Char` representation used
throughout this development. -/
def chars (s : String) : List Char := s.data

/-- The whitespace class of Go's regexp `\s` (RE2): `[\t\n\f\r ]`. -/
def reSpace (c : Char) : Bool :=
  c = ' ' || c = '\t' || c = '\n' || c = '\x0c' || c = '\r'

/-- Whitespace recognised by Go's `unicode.IsSpace` restricted to ASCII
(as used by `strings.TrimSpace`). -/
def goSpace (c : Char) : Bool :=
  c = ' ' || c = '\t' || c = '\n' || c = '\x0b' || c = '\x0c' || c = '\r'

/-- Model of Go `strings.Split(s, "\n")`: split into lines at every newline.
`strings.Split` on `"a\nb\n"` yields `["a", "b", ""]`. -/
def splitLines : List Char → List (List Char)
  | [] => [[]]
  | c :: rest =>
    if c = '\n' then [] :: splitLines rest
    else
      match splitLines rest with
      | [] => [[c]]
      | l :: ls => (c :: l) :: ls

/-- Model of Go `strings.Split(s, ",")`. -/
def splitCommas : List Char → List (List Char)
  | [] => [[]]
  | c :: rest =>
    if c = ',' then [] :: splitCommas rest
    else
      match splitCommas rest with
      | [] => [[c]]
      | l :: ls => (c :: l) :: ls

/-- Model of Go `strings.TrimSpace`: drop leading and trailing whitespace. -/
def trimSpace (l : List Char) : List Char :=
  ((l.dropWhile goSpace).reverse.dropWhile goSpace).reverse

/-- `core/fabulae.go:143-156`: the regexes `^\|\s\[\*\]` and `^\|\s\[\+\]`
applied with `ReplaceAllString(turn, "")`.  Anchored at the start, the pattern
is `'|'`, one `\s` character, then the literal `[t]`; at most one match. -/
def stripLeadMarker (tag : Char) (l : List Char) : List Char :=
  match l with
  | '|' :: c :: '[' :: t :: ']' :: rest =>
    if reSpace c && t = tag then rest else l
  | _ => l

/-- One pass of the cleaning loop body in `core/fabulae.go:151-158`:
strip the voice-1 marker, then the voice-2 marker, then trim whitespace. -/
def cleanTurn (l : List Char) : List Char :=
  trimSpace (stripLeadMarker '+' (stripLeadMarker '*' l))

/-- `core/fabulae.go:149-159`: split the conversation into lines, skip empty
lines, and clean each remaining line. -/
def cleanTurns (conversation : List Char) : List (List Char) :=
  (splitLines conversation).filterMap fun turn =>
    if turn = [] then none else some (cleanTurn turn)

/-- Go `strings.HasSuffix s t` on char lists. -/
def hasSuffix (l suffix : List Char) : Bool := suffix.isSuffixOf l

/-- Go `strings.Replace(text, pat, "", 1)`: remove the first occurrence of
`pat` from `text`.  An empty pattern matches at the start and removing it is
the identity. -/
def replaceFirst (l pat : List Char) : List Char :=
  match pat, l with
  | [], l => l
  | _, [] => []
  | pat, c :: rest =>
    if pat.isPrefixOf (c :: rest) then (c :: rest).drop pat.length
    else c :: replaceFirst rest pat

/-- `core/fabulae.go:385-400` `stripParticipantTags`: split the configured
tag string on commas, extend the list with a `tag ++ ":"` variant for every
tag not already ending in a colon (Go's `range` iterates over the original
elements only), then remove the first occurrence of every pattern. -/
def stripParticipantTags (text tags : List Char) : List Char :=
  if tags.length = 0 then text
  else
    let strip := splitCommas tags
    let strip := strip ++ (strip.filterMap fun s =>
      if hasSuffix s [':'] then none else some (s ++ [':']))
    strip.foldl (fun t s => replaceFirst t s) text

/-- `ttspb.VoiceSelectionParams` as used by the pipeline: name, SSML gender
(as a numeric code) and language code. -/
structure Voice where
  name : List Char
  ssmlGender : Nat
  languageCode : List Char
deriving DecidableEq, Repr

instance : Inhabited Voice := ⟨⟨[], 0, []⟩⟩

/-- `core/fabulae.go:120-125` `turnconfig`. -/
structure TurnConfig where
  id : Nat
  turn : List Char
  voice : Voice
  outputFilename : List Char
deriving DecidableEq, Repr

/-- `core/fabulae.go:164-179`: the turn-configuration loop, with the running
index made explicit.  Turn `i` receives voice 1 when `i` is even and voice 2
when `i` is odd, and the turn text has the participant tags stripped. -/
def configureTurnsFrom (voiceA voiceB : Voice) (tags outputfilename : List Char) :
    Nat → List (List Char) → List TurnConfig
  | _, [] => []
  | i, turn :: rest =>
    { id := i
      turn := stripParticipantTags turn tags
      voice := if i % 2 = 0 then voiceA else voiceB
      outputFilename := outputfilename } ::
    configureTurnsFrom voiceA voiceB tags outputfilename (i + 1) rest

/-- The configuration loop started at index 0, as in `Fabulae`. -/
def configureTurns (voiceA voiceB : Voice) (tags outputfilename : List Char)
    (cleanturns : List (List Char)) : List TurnConfig :=
  configureTurnsFrom voiceA voiceB tags outputfilename 0 cleanturns

/-- The decimal digit characters used by Go's `fmt` verb `%d`. -/
def digitChar : Nat → Char
  | 0 => '0' | 1 => '1' | 2 => '2' | 3 => '3' | 4 => '4'
  | 5 => '5' | 6 => '6' | 7 => '7' | 8 => '8' | 9 => '9'
  | _ => '*'

/-- Decimal representation, most significant digit first, with explicit
fuel (any fuel above the number itself suffices). -/
def natDecimalAux : Nat → Nat → List Char
  | 0, _ => []
  | fuel + 1, n =>
    if n < 10 then [digitChar n]
    else natDecimalAux fuel (n / 10) ++ [digitChar (n % 10)]

/-- Decimal representation of a natural number, most significant digit
first, as printed by Go's `%d`. -/
def natDecimal (n : Nat) : List Char := natDecimalAux (n + 1) n

/-- Go's `fmt.Sprintf("%02d", n)`: the decimal representation left-padded
with `'0'` to a minimum width of 2. -/
def pad2 (n : Nat) : List Char :=
  if n < 10 then '0' :: natDecimal n else natDecimal n

/-- Go `path/filepath.Split`: split a path after the final `'/'` into
directory (with trailing slash) and file name. -/
def splitPath (p : List Char) : List Char × List Char :=
  let rf := p.reverse.takeWhile (fun c => c ≠ '/')
  (p.take (p.length - rf.length), rf.reverse)

/-- Go `filepath.Join(dir, name)` for the shapes produced by `Split`:
the directory is either empty or ends in a slash. -/
def joinPath (dir name : List Char) : List Char :=
  if dir = [] then name else dir ++ name

/-- `core/fabulae.go:275-278`: the segment file name of a turn — the
zero-padded turn id joined with an underscore to the shared base name. -/
def turnFilename (t : TurnConfig) : List Char :=
  let dir := (splitPath t.outputFilename).1
  let filename := (splitPath t.outputFilename).2
  joinPath dir (pad2 t.id ++ '_' :: filename)

/-- The segment file name as a function of the turn index and the shared
output path. -/
def turnFilenameOf (outputfilename : List Char) (i : Nat) : List Char :=
  joinPath (splitPath outputfilename).1 (pad2 i ++ '_' :: (splitPath outputfilename).2)

/-! ## Concurrent synthesizer (`core/fabulae.go:257-302` `processAudioTurns`)

Each turn runs in its own goroutine.  The external synthesis call is modelled
by an oracle `synth : Nat → Option (List Nat)` giving, per goroutine index,
either the audio bytes or a failure; the file write by an oracle
`writeOk : Nat → Bool`.  A goroutine sends an error-marker string on synthesis
failure, a write-error string on write failure, and — in every case, since
neither error path returns early — the segment file name.  The channel
interleaves the goroutines' messages; any collected result list is a
permutation of the canonical concatenation below. -/

/-- `core/fabulae.go:272`: the error marker sent on synthesis failure,
`fmt.Sprintf("error goroutine: %d; turn %d; voice: %s", i, turn.ID,
turn.Voice.Name)`. -/
def errMarker (i : Nat) (t : TurnConfig) : List Char :=
  chars "error goroutine: " ++ natDecimal i ++ chars "; turn " ++
    natDecimal t.id ++ chars "; voice: " ++ t.voice.name

/-- `core/fabulae.go:282`: the message sent on write failure (the formatted
error text is abstracted). -/
def writeErrMarker (t : TurnConfig) : List Char :=
  chars "unable to write to " ++ turnFilename t ++ chars ": write error"

/-- The messages one goroutine (`core/fabulae.go:267-289`) sends on the
result channel, in program order: the code falls through both error branches,
so the segment file name is always sent last. -/
def goroutineMsgs (synth : Nat → Option (List Nat)) (writeOk : Nat → Bool)
    (i : Nat) (t : TurnConfig) : List (List Char) :=
  (match synth i with | none => [errMarker i t] | some _ => []) ++
  (if writeOk i then [] else [writeErrMarker t]) ++
  [turnFilename t]

/-- The file one goroutine writes: `os.WriteFile` is called unconditionally
with the synthesis result, which is the empty byte slice when synthesis
failed (`synthesizeWithVoice` returns `[]byte{}` on error). -/
def goroutineWrite (synth : Nat → Option (List Nat)) (writeOk : Nat → Bool)
    (i : Nat) (t : TurnConfig) : Option (List Char × List Nat) :=
  if writeOk i then some (turnFilename t, (synth i).getD []) else none

/-- The canonical (one fixed interleaving) result-channel content of
`processAudioTurns`, starting the goroutine index at `i`.  Any actual
collected result list is a permutation of this list. -/
def processMsgs (synth : Nat → Option (List Nat)) (writeOk : Nat → Bool) :
    Nat → List TurnConfig → List (List Char)
  | _, [] => []
  | i, t :: ts => goroutineMsgs synth writeOk i t ++ processMsgs synth writeOk (i + 1) ts

/-- The files written by `processAudioTurns`, starting the goroutine index
at `i`: one `(name, bytes)` pair per successful `os.WriteFile`. -/
def processWrites (synth : Nat → Option (List Nat)) (writeOk : Nat → Bool) :
    Nat → List TurnConfig → List (List Char × List Nat)
  | _, [] => []
  | i, t :: ts =>
    (goroutineWrite synth writeOk i t).toList ++ processWrites synth writeOk (i + 1) ts

/-- `core/fabulae.go:183`: `sort.Sort(sort.StringSlice(outputfiles))` —
ascending byte-wise (here: character-wise lexicographic) string order. -/
def lexLt : List Char → List Char → Bool
  | [], [] => false
  | [], _ :: _ => true
  | _ :: _, [] => false
  | a :: as, b :: bs => if a < b then true else if b < a then false else lexLt as bs

/-- The non-strict order induced by `lexLt`: `a` is at most `b` when `b` is
not strictly below `a`.  `sort.Sort` produces a permutation ordered by this
relation. -/
def lexLe (a b : List Char) : Prop := ¬ lexLt b a = true

instance : DecidableRel lexLe := fun a b => by unfold lexLe; infer_instance

/-- The sort applied to the collected result list before it is returned. -/
def sortStrings (l : List (List Char)) : List (List Char) :=
  l.insertionSort lexLe

/-! ## Single-block SSML generation (`core/fabulae.go:370-383`) -/

/-- One turn's fragment of the SSML document: a mark, a voice element using
`voices[k%2]`, the tag-stripped text. -/
def ssmlFragment (k : Nat) (v : List Char) (voices : List Voice) (tags : List Char) : List Char :=
  chars "<mark name=\"" ++ natDecimal k ++ chars "\"/><voice name=\"" ++
    (voices.getD (k % 2) default).name ++ chars "\">" ++
    stripParticipantTags v tags ++ chars "</voice>"

/-- `generateSSMLfromConversation`: wrap every turn's fragment plus a fixed
break element in a `<speak>` root.  The global `striptags` variable is made
an explicit parameter. -/
def generateSSMLfromConversation (turns : List (List Char)) (voices : List Voice)
    (tags : List Char) : List Char :=
  chars "<speak>" ++
    (turns.enum.map fun p =>
      ssmlFragment p.1 p.2 voices tags ++ chars "<break time=\"250ms\"/>").flatten ++
    chars "</speak>"

/-! ## Waveform combiner (`src/fabulae-cli/main.go:180-228` `combineWavFiles`)

A `moutend/go-wav` `File` is its format triple plus raw sample data bytes.
Reading a segment is an oracle `readF`; an unreadable segment hits
`log.Fatalf` (process aborts, nothing deleted).  With zero segments the
access `wavs[0].SamplesPerSec()` panics.  Otherwise the output takes the
first segment's format, `io.Copy` appends every segment's data in order,
`os.WriteFile`'s error is ignored, and every input file is deleted. -/

/-- A decoded WAV file: format metadata plus raw sample data bytes. -/
structure WavFile where
  samplesPerSec : Nat
  bitsPerSample : Nat
  channels : Nat
  data : List Nat
deriving DecidableEq, Repr

/-- Bytes per sample frame: channel count times bytes per sample. -/
def blockAlign (w : WavFile) : Nat := w.channels * (w.bitsPerSample / 8)

/-- Number of whole sample frames held by a WAV file. -/
def numSamples (w : WavFile) : Nat := w.data.length / blockAlign w

/-- The reading loop `main.go:182-191`: read each file in order; the first
read error is fatal for the whole combine. -/
def readAll (readF : List Char → Option WavFile) : List (List Char) → Option (List WavFile)
  | [] => some []
  | n :: ns =>
    match readF n, readAll readF ns with
    | some w, some ws => some (w :: ws)
    | _, _ => none

/-- Outcome of `combineWavFiles`: abort on an unreadable segment
(`log.Fatalf`), panic on the empty list (`wavs[0]` is out of range), or run
to completion having possibly written the combined file and having deleted
every input segment. -/
inductive CombineOutcome where
  | fatalRead : CombineOutcome
  | panicIndexOutOfRange : CombineOutcome
  | done : WavFile → Bool → List (List Char) → CombineOutcome
deriving DecidableEq, Repr

/-- `src/fabulae-cli/main.go:180-228`.  `writeOk` models whether the ignored
`os.WriteFile` of the combined output succeeds; in `done w written deleted`,
`w` is the combined waveform, `written` whether the output file exists and
`deleted` the input segments removed afterwards. -/
def combineWavFiles (readF : List Char → Option WavFile) (writeOk : Bool)
    (audiolist : List (List Char)) : CombineOutcome :=
  match readAll readF audiolist with
  | none => .fatalRead
  | some wavs =>
    match wavs with
    | [] => .panicIndexOutOfRange
    | w0 :: rest =>
      .done
        { samplesPerSec := w0.samplesPerSec
          bitsPerSample := w0.bitsPerSample
          channels := w0.channels
          data := ((w0 :: rest).map WavFile.data).flatten }
        writeOk audiolist

/-- The input segment files removed by a combine outcome: the aborting
outcomes delete nothing. -/
def deletedSegments : CombineOutcome → List (List Char)
  | .done _ _ deleted => deleted
  | _ => []

/-- How many combined output files an outcome wrote. -/
def combinedFileCount : CombineOutcome → Nat
  | .done _ written _ => if written then 1 else 0
  | _ => 0

/-! ## Synthesis entry points and their length gates

`Speak` (`src/fabulae.go:40-103`) and the single-block `synthesize`
(`src/fabulae.go:332-368`, `core/fabulae.go:335-368`) create the client,
then reject inputs longer than 5000 characters before calling
`SynthesizeSpeech`.  The per-turn `synthesizeWithVoice`
(`src/fabulae.go:303-329`, `core/fabulae.go:305-332`) has no length check.
The client construction and the synthesis call are oracles; `synthAttempted`
records whether `SynthesizeSpeech` was reached. -/

/-- Observable outcome of one synthesis entry point: the returned value and
whether the `SynthesizeSpeech` network call was attempted. -/
structure SynthRun where
  result : Except (List Char) (List Nat)
  synthAttempted : Bool
deriving Repr

/-- `Speak` up to the synthesis call: client creation, then the 5000
character limit (`if len(string(text)) > 5000`), then the call. -/
def speakModel (clientOk : Bool) (synthRes : Option (List Nat)) (text : List Char) : SynthRun :=
  if !clientOk then { result := .error (chars "client error"), synthAttempted := false }
  else if text.length > 5000 then
    { result := .error (chars "too many characters: " ++ natDecimal text.length)
      synthAttempted := false }
  else
    match synthRes with
    | none => { result := .error (chars "synthesis error"), synthAttempted := true }
    | some b => { result := .ok b, synthAttempted := true }

/-- `synthesize` (single-block SSML): client creation, the same 5000
character limit, then the call. -/
def synthesizeModel (clientOk : Bool) (synthRes : Option (List Nat)) (ssml : List Char) : SynthRun :=
  if !clientOk then { result := .error (chars "client error"), synthAttempted := false }
  else if ssml.length > 5000 then
    { result := .error (chars "too many characters: " ++ natDecimal ssml.length)
      synthAttempted := false }
  else
    match synthRes with
    | none => { result := .error (chars "synthesis error"), synthAttempted := true }
    | some b => { result := .ok b, synthAttempted := true }

/-- `synthesizeWithVoice` (per-turn synthesis): client creation, then the
call — the function performs no input-length check at all. -/
def synthesizeWithVoiceModel (clientOk : Bool) (synthRes : Option (List Nat))
    (_turn : List Char) : SynthRun :=
  if !clientOk then { result := .error (chars "client error"), synthAttempted := false }
  else
    match synthRes with
    | none => { result := .error (chars "synthesis error"), synthAttempted := true }
    | some b => { result := .ok b, synthAttempted := true }

/-! ## The `Fabulae` orchestrator (`core/fabulae.go:128-255`) -/

/-- How a call to `Fabulae` ends: it either returns a `(files, err)` pair to
its caller, or the process terminates inside it (`os.Exit(1)` / `log.Fatal`
on the single-block path). -/
inductive FabulaeOutcome where
  | returned : List (List Char) → Option (List Char) → FabulaeOutcome
  | exited : FabulaeOutcome
deriving DecidableEq, Repr

/-- `getOutputFilename` (`core/fabulae.go:113-118`): default to a
timestamp-derived name (`now` abstracts `time.Now().Format(timeformat)`). -/
def getOutputFilename (outputfilename now : List Char) : List Char :=
  if outputfilename = [] then now ++ chars ".wav" else outputfilename

/-- `Fabulae`.  Turn-by-turn mode configures the cleaned turns, runs the
concurrent synthesizer, sorts the collected strings and returns them with a
`nil` error.  Single-block mode builds the SSML document, and on synthesis
failure, write failure or read-back failure terminates the process;
otherwise it returns the single output file with a `nil` error.  Oracles:
`synth`/`writeOk` per goroutine, `blockSynth`/`blockWriteOk`/`readBackOk`
for the single-block path, `now` for the timestamp. -/
def fabulaeModel (voiceA voiceB : Voice) (conversation outputfilename : List Char)
    (turnbyturn : Bool) (tags : List Char)
    (synth : Nat → Option (List Nat)) (writeOk : Nat → Bool)
    (blockSynth : Option (List Nat)) (blockWriteOk readBackOk : Bool)
    (now : List Char) : FabulaeOutcome :=
  let out := getOutputFilename outputfilename now
  if turnbyturn then
    .returned
      (sortStrings (processMsgs synth writeOk 0
        (configureTurns voiceA voiceB tags out (cleanTurns conversation))))
      none
  else
    match blockSynth with
    | none => .exited
    | some _ =>
      if !blockWriteOk then .exited
      else if !readBackOk then .exited
      else .returned [out] none

/-! ## Decimal representation lemmas -/

/-- Decode a decimal digit string back to the number it denotes. -/
def decValue (l : List Char) : Nat := l.foldl (fun a c => 10 * a + (c.toNat - 48)) 0

theorem decValue_append_digit (a : List Char) (c : Char) :
    decValue (a ++ [c]) = 10 * decValue a + (c.toNat - 48) := by
  unfold decValue
  rw [List.foldl_append]
  rfl

theorem digitChar_val (n : Nat) (h : n < 10) : (digitChar n).toNat - 48 = n := by
  interval_cases n <;> decide

theorem decValue_natDecimalAux (fuel : Nat) : ∀ n, n < fuel →
    decValue (natDecimalAux fuel n) = n := by
  induction fuel with
  | zero => omega
  | succ f ih =>
    intro n hn
    rw [natDecimalAux]
    by_cases h10 : n < 10
    · simp only [if_pos h10]
      show 10 * 0 + ((digitChar n).toNat - 48) = n
      rw [digitChar_val n h10]
      omega
    · simp only [if_neg h10]
      rw [decValue_append_digit]
      have hdiv : n / 10 < f := by
        have := Nat.div_lt_self (by omega : 0 < n) (by omega : 1 < 10)
        omega
      rw [ih (n / 10) hdiv, digitChar_val (n % 10) (Nat.mod_lt _ (by omega))]
      omega

theorem decValue_natDecimal (n : Nat) : decValue (natDecimal n) = n :=
  decValue_natDecimalAux (n + 1) n (Nat.lt_succ_self n)

theorem decValue_cons_zero (l : List Char) : decValue ('0' :: l) = decValue l := by
  unfold decValue
  rw [List.foldl_cons]
  have h0 : 10 * 0 + ('0'.toNat - 48) = 0 := by decide
  rw [h0]

theorem decValue_pad2 (n : Nat) : decValue (pad2 n) = n := by
  unfold pad2
  by_cases h : n < 10
  · rw [if_pos h, decValue_cons_zero, decValue_natDecimal]
  · rw [if_neg h, decValue_natDecimal]

theorem pad2_inj (m n : Nat) (h : pad2 m = pad2 n) : m = n := by
  have := congrArg decValue h
  rwa [decValue_pad2, decValue_pad2] at this

theorem segName_inj (base : List Char) (m n : Nat)
    (h : pad2 m ++ '_' :: base = pad2 n ++ '_' :: base) : m = n := by
  have hlen : (pad2 m).length = (pad2 n).length := by
    have hl := congrArg List.length h
    simp only [List.length_append, List.length_cons] at hl
    omega
  exact pad2_inj m n (List.append_inj h hlen).1

theorem turnFilenameOf_inj (out : List Char) : Function.Injective (turnFilenameOf out) := by
  intro m n h
  unfold turnFilenameOf joinPath at h
  by_cases hd : (splitPath out).1 = []
  · rw [if_pos hd, if_pos hd] at h
    exact segName_inj _ m n h
  · rw [if_neg hd, if_neg hd] at h
    exact segName_inj _ m n (List.append_cancel_left h)

/-! ## Lexicographic order lemmas -/

theorem lexLt_asymm : ∀ a b, lexLt a b = true → lexLt b a = false := by
  intro a
  induction a with
  | nil => intro b hab; cases b <;> rfl
  | cons x as ih =>
    intro b hab
    cases b with
    | nil => simp [lexLt] at hab
    | cons y bs =>
      rw [lexLt] at hab ⊢
      rcases lt_trichotomy x y with hxy | hxy | hxy
      · rw [if_neg (lt_asymm hxy), if_pos hxy]
      · subst hxy
        simp only [if_neg (lt_irrefl x)] at hab ⊢
        exact ih bs hab
      · rw [if_neg (lt_asymm hxy), if_pos hxy] at hab
        simp at hab

theorem lexLt_trichotomy : ∀ a b, lexLt a b = true ∨ a = b ∨ lexLt b a = true := by
  intro a
  induction a with
  | nil =>
    intro b
    cases b with
    | nil => right; left; rfl
    | cons y bs => left; rfl
  | cons x as ih =>
    intro b
    cases b with
    | nil => right; right; rfl
    | cons y bs =>
      rcases lt_trichotomy x y with hxy | hxy | hxy
      · left; rw [lexLt, if_pos hxy]
      · subst hxy
        rcases ih bs with h | h | h
        · left; rw [lexLt]; simp only [if_neg (lt_irrefl x)]; exact h
        · right; left; rw [h]
        · right; right; rw [lexLt]; simp only [if_neg (lt_irrefl x)]; exact h
      · right; right; rw [lexLt, if_pos hxy]

theorem lexLt_trans : ∀ a b c, lexLt a b = true → lexLt b c = true → lexLt a c = true := by
  intro a
  induction a with
  | nil =>
    intro b c hab hbc
    cases b with
    | nil => simp [lexLt] at hab
    | cons y bs =>
      cases c with
      | nil => simp [lexLt] at hbc
      | cons z cs => rfl
  | cons x as ih =>
    intro b c hab hbc
    cases b with
    | nil => simp [lexLt] at hab
    | cons y bs =>
      cases c with
      | nil => simp [lexLt] at hbc
      | cons z cs =>
        rw [lexLt] at hab hbc ⊢
        rcases lt_trichotomy x y with h1 | h1 | h1
        · rcases lt_trichotomy y z with h2 | h2 | h2
          · rw [if_pos (lt_trans h1 h2)]
          · subst h2; rw [if_pos h1]
          · rw [if_neg (lt_asymm h2), if_pos h2] at hbc
            simp at hbc
        · subst h1
          simp only [if_neg (lt_irrefl x)] at hab
          rcases lt_trichotomy x z with h2 | h2 | h2
          · rw [if_pos h2]
          · subst h2
            simp only [if_neg (lt_irrefl x)] at hbc ⊢
            exact ih bs cs hab hbc
          · rw [if_neg (lt_asymm h2), if_pos h2] at hbc
            simp at hbc
        · rw [if_neg (lt_asymm h1), if_pos h1] at hab
          simp at hab

theorem lexLt_append_left : ∀ (e x y : List Char),
    lexLt (e ++ x) (e ++ y) = lexLt x y := by
  intro e
  induction e with
  | nil => intro x y; rfl
  | cons c cs ih =>
    intro x y
    show lexLt (c :: (cs ++ x)) (c :: (cs ++ y)) = lexLt x y
    rw [lexLt]
    simp only [if_neg (lt_irrefl c)]
    exact ih x y

theorem lexLt_append_same_length : ∀ (a b c d : List Char),
    a.length = b.length → a ≠ b → lexLt (a ++ c) (b ++ d) = lexLt a b := by
  intro a
  induction a with
  | nil =>
    intro b c d hlen hne
    cases b with
    | nil => exact absurd rfl hne
    | cons y bs => simp at hlen
  | cons x as ih =>
    intro b c d hlen hne
    cases b with
    | nil => simp at hlen
    | cons y bs =>
      show lexLt (x :: (as ++ c)) (y :: (bs ++ d)) = lexLt (x :: as) (y :: bs)
      rw [lexLt, lexLt]
      rcases lt_trichotomy x y with hxy | hxy | hxy
      · rw [if_pos hxy, if_pos hxy]
      · subst hxy
        simp only [if_neg (lt_irrefl x)]
        have hne2 : as ≠ bs := fun hh => hne (by rw [hh])
        have hlen2 : as.length = bs.length := by simpa using hlen
        exact ih bs c d hlen2 hne2
      · rw [if_neg (lt_asymm hxy), if_pos hxy, if_neg (lt_asymm hxy), if_pos hxy]

instance : IsTotal (List Char) lexLe := by
  constructor
  intro a b
  unfold lexLe
  by_cases h : lexLt b a = true
  · right
    rw [lexLt_asymm b a h]
    simp
  · left; exact h

instance : IsTrans (List Char) lexLe := by
  constructor
  intro a b c hab hbc
  unfold lexLe at *
  intro hca
  rcases lexLt_trichotomy a b with h | h | h
  · exact hbc (lexLt_trans c a b hca h)
  · subst h; exact hbc hca
  · exact hab h

instance : IsAntisymm (List Char) lexLe := by
  constructor
  intro a b hab hba
  unfold lexLe at *
  rcases lexLt_trichotomy a b with h | h | h
  · exact absurd h hba
  · exact h
  · exact absurd h hab

set_option maxRecDepth 10000 in
theorem pad2_len_two : ∀ n, n < 100 → (pad2 n).length = 2 := by decide

set_option maxRecDepth 10000 in
theorem pad2_lt_lex : ∀ j, j < 100 → ∀ i, i < j → lexLt (pad2 i) (pad2 j) = true := by decide

/-- For turn indices below 100 the zero-padded segment file names compare
lexicographically exactly as the indices compare numerically. -/
theorem turnFilenameOf_lexLt (out : List Char) (i j : Nat) (hij : i < j) (hj : j < 100) :
    lexLt (turnFilenameOf out i) (turnFilenameOf out j) = true := by
  have hne : pad2 i ≠ pad2 j := fun hh => Nat.lt_irrefl j (pad2_inj i j hh ▸ hij)
  have hlen : (pad2 i).length = (pad2 j).length := by
    rw [pad2_len_two i (lt_trans hij hj), pad2_len_two j hj]
  have hcore : lexLt (pad2 i ++ '_' :: (splitPath out).2) (pad2 j ++ '_' :: (splitPath out).2)
      = true := by
    rw [lexLt_append_same_length (pad2 i) (pad2 j) _ _ hlen hne]
    exact pad2_lt_lex j hj i hij
  unfold turnFilenameOf joinPath
  by_cases hd : (splitPath out).1 = []
  · rw [if_pos hd, if_pos hd]; exact hcore
  · rw [if_neg hd, if_neg hd, lexLt_append_left]; exact hcore

/-- The index-ordered list of segment file names, for up to 100 turns, is
strictly increasing in lexicographic order. -/
theorem filenames_pairwise (out : List Char) (n : Nat) (hn : n ≤ 100) :
    ((List.range n).map (turnFilenameOf out)).Pairwise (fun a b => lexLt a b = true) := by
  rw [List.pairwise_map]
  refine (List.pairwise_lt_range n).imp_of_mem ?_
  intro a b ha hb hab
  exact turnFilenameOf_lexLt out a b hab (lt_of_lt_of_le (List.mem_range.mp hb) hn)

/-! ## Pipeline bookkeeping lemmas -/

theorem configureTurnsFrom_length (vA vB : Voice) (tags out : List Char) :
    ∀ (k : Nat) (cts : List (List Char)),
      (configureTurnsFrom vA vB tags out k cts).length = cts.length := by
  intro k cts
  induction cts generalizing k with
  | nil => rfl
  | cons t ts ih => simp [configureTurnsFrom, ih]

theorem cleanTurns_length (conv : List Char) :
    (cleanTurns conv).length = ((splitLines conv).filter (fun l => !l.isEmpty)).length := by
  unfold cleanTurns
  induction splitLines conv with
  | nil => rfl
  | cons t ts ih =>
    by_cases h : t = []
    · subst h
      simpa using ih
    · have hemp : t.isEmpty = false := by
        cases t with
        | nil => exact absurd rfl h
        | cons c cs => rfl
      simp [List.filterMap_cons, List.filter_cons, h, hemp, ih]

theorem processWrites_configure (vA vB : Voice) (tags out : List Char)
    (synth : Nat → Option (List Nat)) :
    ∀ (k : Nat) (cts : List (List Char)),
      processWrites synth (fun _ => true) k (configureTurnsFrom vA vB tags out k cts)
        = (List.range cts.length).map
            (fun j => (turnFilenameOf out (k + j), (synth (k + j)).getD [])) := by
  intro k cts
  induction cts generalizing k with
  | nil => rfl
  | cons t ts ih =>
    rw [configureTurnsFrom, processWrites, List.length_cons, List.range_succ_eq_map,
      List.map_cons, List.map_map]
    have hhead : (goroutineWrite synth (fun _ => true) k
        { id := k, turn := stripParticipantTags t tags,
          voice := if k % 2 = 0 then vA else vB, outputFilename := out }).toList
        = [(turnFilenameOf out (k + 0), (synth (k + 0)).getD [])] := by
      simp [goroutineWrite, turnFilename, turnFilenameOf, Nat.add_zero]
    rw [hhead, ih (k + 1)]
    show (turnFilenameOf out (k + 0), (synth (k + 0)).getD []) ::
        (List.range ts.length).map (fun j => (turnFilenameOf out ((k + 1) + j), (synth ((k + 1) + j)).getD []))
      = (turnFilenameOf out (k + 0), (synth (k + 0)).getD []) :: (List.range ts.length).map _
    refine congrArg _ ?_
    apply List.map_congr_left
    intro j _
    have harith : (k + 1) + j = k + (j + 1) := by omega
    simp [Function.comp, harith]

theorem processMsgs_configure_success (vA vB : Voice) (tags out : List Char)
    (synth : Nat → Option (List Nat)) (hs : ∀ i, (synth i).isSome) :
    ∀ (k : Nat) (cts : List (List Char)),
      processMsgs synth (fun _ => true) k (configureTurnsFrom vA vB tags out k cts)
        = (List.range cts.length).map (fun j => turnFilenameOf out (k + j)) := by
  intro k cts
  induction cts generalizing k with
  | nil => rfl
  | cons t ts ih =>
    rw [configureTurnsFrom, processMsgs, List.length_cons, List.range_succ_eq_map,
      List.map_cons, List.map_map]
    obtain ⟨b, hb⟩ := Option.isSome_iff_exists.mp (hs k)
    have hhead : goroutineMsgs synth (fun _ => true) k
        { id := k, turn := stripParticipantTags t tags,
          voice := if k % 2 = 0 then vA else vB, outputFilename := out }
        = [turnFilenameOf out (k + 0)] := by
      simp [goroutineMsgs, hb, turnFilename, turnFilenameOf, Nat.add_zero]
    rw [hhead, ih (k + 1)]
    show turnFilenameOf out (k + 0) ::
        (List.range ts.length).map (fun j => turnFilenameOf out ((k + 1) + j))
      = turnFilenameOf out (k + 0) :: (List.range ts.length).map _
    refine congrArg _ ?_
    apply List.map_congr_left
    intro j _
    have harith : (k + 1) + j = k + (j + 1) := by omega
    simp [Function.comp, harith]

theorem mem_processMsgs_of_get (synth : Nat → Option (List Nat)) (wo : Nat → Bool) :
    ∀ (turns : List TurnConfig) (k p : Nat) (t : TurnConfig), turns.get? p = some t →
      ∀ x ∈ goroutineMsgs synth wo (k + p) t, x ∈ processMsgs synth wo k turns := by
  intro turns
  induction turns with
  | nil => intro k p t hget; simp at hget
  | cons t0 ts ih =>
    intro k p t hget x hx
    cases p with
    | zero =>
      simp only [List.get?] at hget
      injection hget with hget
      subst hget
      rw [processMsgs]
      exact List.mem_append_left _ hx
    | succ p =>
      simp only [List.get?] at hget
      rw [processMsgs]
      refine List.mem_append_right _ ?_
      have harith : (k + 1) + p = k + (p + 1) := by omega
      exact ih (k + 1) p t hget x (by rwa [harith])

theorem mem_processWrites_of_get (synth : Nat → Option (List Nat)) (wo : Nat → Bool) :
    ∀ (turns : List TurnConfig) (k p : Nat) (t : TurnConfig), turns.get? p = some t →
      ∀ x ∈ (goroutineWrite synth wo (k + p) t).toList,
        x ∈ processWrites synth wo k turns := by
  intro turns
  induction turns with
  | nil => intro k p t hget; simp at hget
  | cons t0 ts ih =>
    intro k p t hget x hx
    cases p with
    | zero =>
      simp only [List.get?] at hget
      injection hget with hget
      subst hget
      rw [processWrites]
      exact List.mem_append_left _ hx
    | succ p =>
      simp only [List.get?] at hget
      rw [processWrites]
      refine List.mem_append_right _ ?_
      have harith : (k + 1) + p = k + (p + 1) := by omega
      exact ih (k + 1) p t hget x (by rwa [harith])

theorem readAll_of_isSome (readF : List Char → Option WavFile)
    (h : ∀ f, (readF f).isSome) :
    ∀ names, ∃ l, readAll readF names = some l ∧ l.length = names.length := by
  intro names
  induction names with
  | nil => exact ⟨[], rfl, rfl⟩
  | cons n ns ih =>
    obtain ⟨w, hw⟩ := Option.isSome_iff_exists.mp (h n)
    obtain ⟨l, hl, hlen⟩ := ih
    refine ⟨w :: l, ?_, by simp [hlen]⟩
    rw [readAll, hw, hl]

theorem sum_div_of_dvd (B : Nat) : ∀ (L : List Nat), (∀ x ∈ L, B ∣ x) →
    L.sum / B = (L.map (fun x => x / B)).sum := by
  intro L
  induction L with
  | nil => intro _; simp
  | cons a l ih =>
    intro h
    have ha : B ∣ a := h a (by simp)
    have hl : B ∣ l.sum := List.dvd_sum fun x hx => h x (by simp [hx])
    rw [List.sum_cons, List.map_cons, List.sum_cons,
      Nat.add_div_of_dvd_right ha, ih fun x hx => h x (by simp [hx])]

theorem configureTurnsFrom_map_voice (vA vB : Voice) (tags out : List Char) :
    ∀ (k : Nat) (cts : List (List Char)),
      (configureTurnsFrom vA vB tags out k cts).map TurnConfig.voice
        = (List.range cts.length).map (fun j => if (k + j) % 2 = 0 then vA else vB) := by
  intro k cts
  induction cts generalizing k with
  | nil => rfl
  | cons t ts ih =>
    rw [configureTurnsFrom, List.map_cons, List.length_cons, List.range_succ_eq_map,
      List.map_cons, List.map_map, ih (k + 1)]
    show (if k % 2 = 0 then vA else vB) ::
        (List.range ts.length).map (fun j => if ((k + 1) + j) % 2 = 0 then vA else vB)
      = (if (k + 0) % 2 = 0 then vA else vB) :: (List.range ts.length).map _
    rw [Nat.add_zero]
    refine congrArg _ ?_
    apply List.map_congr_left
    intro j _
    have harith : (k + 1) + j = k + (j + 1) := by omega
    simp [Function.comp, harith]

/-! ## Claim theorems -/

/-- C2: for every turn index `i` of a conversation processed by `Fabulae`,
in turn-by-turn mode the configured turn at index `i` carries voice 1 when
`i` is even and voice 2 when `i` is odd, and in single-block SSML mode the
fragment for turn `k` inlines the name of voice 1 when `k` is even and of
voice 2 when `k` is odd. -/
theorem voice_alternation_by_parity (vA vB : Voice) (tags out : List Char)
    (cts : List (List Char)) :
    (configureTurns vA vB tags out cts).map TurnConfig.voice
      = (List.range cts.length).map (fun i => if i % 2 = 0 then vA else vB) ∧
    ∀ (k : Nat) (v : List Char),
      ssmlFragment k v [vA, vB] tags
        = chars "<mark name=\"" ++ natDecimal k ++ chars "\"/><voice name=\"" ++
          (if k % 2 = 0 then vA else vB).name ++ chars "\">" ++
          stripParticipantTags v tags ++ chars "</voice>" := by
  constructor
  · rw [configureTurns, configureTurnsFrom_map_voice]
    apply List.map_congr_left
    intro j _
    rw [Nat.zero_add]
  · intro k v
    unfold ssmlFragment
    have hv : ([vA, vB].getD (k % 2) default) = if k % 2 = 0 then vA else vB := by
      rcases Nat.mod_two_eq_zero_or_one k with h | h <;> simp [h]
    rw [hv]

set_option maxRecDepth 10000 in
/-- C4 counterexample: with 101 turns the zero-padding (`%02d`) no longer
fixes the width — the segment file of turn 100 sorts lexicographically
strictly before the one of turn 99, so a plain lexicographic sort does not
arrange the segments in ascending turn-index order for every number of
turns. -/
theorem filename_sort_counterexample :
    99 < 100 ∧
    lexLt (turnFilenameOf (chars "out.wav") 100) (turnFilenameOf (chars "out.wav") 99)
      = true := by
  constructor
  · omega
  · decide

/-- C4 amended: for at most 100 turns (indices 0..99, all padded to exactly
two digits) the index-ordered segment file-name list is strictly increasing
lexicographically, and sorting any collection order of those file names
recovers exactly the index order. -/
theorem segment_filenames_sort_in_index_order (out : List Char) (n : Nat) (hn : n ≤ 100)
    (l : List (List Char)) (hl : l.Perm ((List.range n).map (turnFilenameOf out))) :
    sortStrings l = (List.range n).map (turnFilenameOf out) ∧
    ((List.range n).map (turnFilenameOf out)).Pairwise (fun a b => lexLt a b = true) := by
  have hpw := filenames_pairwise out n hn
  have hsorted : List.Sorted lexLe ((List.range n).map (turnFilenameOf out)) := by
    refine hpw.imp ?_
    intro a b hab
    unfold lexLe
    rw [lexLt_asymm a b hab]
    simp
  have h1 : List.Sorted lexLe (sortStrings l) := List.sorted_insertionSort lexLe l
  have h2 : (sortStrings l).Perm ((List.range n).map (turnFilenameOf out)) :=
    (List.perm_insertionSort lexLe l).trans hl
  exact ⟨List.eq_of_perm_of_sorted h2 h1 hsorted, hpw⟩

set_option maxRecDepth 10000 in
/-- Witness for the C4 amended theorem at two turns collected in reverse
order. -/
theorem segment_filenames_sort_in_index_order_witness :
    sortStrings [turnFilenameOf (chars "out.wav") 1, turnFilenameOf (chars "out.wav") 0]
      = (List.range 2).map (turnFilenameOf (chars "out.wav")) ∧
    ((List.range 2).map (turnFilenameOf (chars "out.wav"))).Pairwise
      (fun a b => lexLt a b = true) :=
  segment_filenames_sort_in_index_order (chars "out.wav") 2 (by omega)
    [turnFilenameOf (chars "out.wav") 1, turnFilenameOf (chars "out.wav") 0] (by decide)

/-- C9: the conversation `"| [*] hello there\n| [+] hi!\n"` splits into
exactly the turns `["hello there", "hi!"]`, with turn 0 assigned voice 1
and turn 1 assigned voice 2 (`core/fabulae.go:142-179`). -/
theorem scenario_two_turn_split (vA vB : Voice) (out : List Char) :
    cleanTurns (chars "| [*] hello there\n| [+] hi!\n")
      = [chars "hello there", chars "hi!"] ∧
    (configureTurns vA vB (chars "*,+") out
        (cleanTurns (chars "| [*] hello there\n| [+] hi!\n"))).map
        (fun t => (t.turn, t.voice))
      = [(chars "hello there", vA), (chars "hi!", vB)] := by
  constructor
  · decide
  · rfl

/-- C5 counterexample: the per-turn synthesis entry point
`synthesizeWithVoice` performs no length check — on a 5001-character text it
attempts the synthesis call and returns its result instead of an error. -/
theorem oversized_preturn_counterexample :
    (List.replicate 5001 'a').length > 5000 ∧
    (synthesizeWithVoiceModel true (some []) (List.replicate 5001 'a')).synthAttempted
      = true ∧
    (synthesizeWithVoiceModel true (some []) (List.replicate 5001 'a')).result = .ok [] := by
  refine ⟨?_, rfl, rfl⟩
  rw [List.length_replicate]
  omega

/-- C5 amended: `Speak` and the single-block SSML `synthesize` reject text
longer than 5000 characters with an error before attempting the synthesis
call, but the per-turn `synthesizeWithVoice` has no length check and always
attempts the call. -/
theorem oversized_input_gates (clientOk : Bool) (synthRes : Option (List Nat))
    (text : List Char) (h : text.length > 5000) :
    (speakModel clientOk synthRes text).synthAttempted = false ∧
    (∃ e, (speakModel clientOk synthRes text).result = .error e) ∧
    (synthesizeModel clientOk synthRes text).synthAttempted = false ∧
    (∃ e, (synthesizeModel clientOk synthRes text).result = .error e) ∧
    (synthesizeWithVoiceModel true synthRes text).synthAttempted = true := by
  have hlast : (synthesizeWithVoiceModel true synthRes text).synthAttempted = true := by
    cases synthRes <;> rfl
  cases clientOk with
  | false => exact ⟨rfl, ⟨_, rfl⟩, rfl, ⟨_, rfl⟩, hlast⟩
  | true =>
    have h1 : speakModel true synthRes text
        = { result := .error (chars "too many characters: " ++ natDecimal text.length)
            synthAttempted := false } := by
      unfold speakModel
      simp [h]
    have h2 : synthesizeModel true synthRes text
        = { result := .error (chars "too many characters: " ++ natDecimal text.length)
            synthAttempted := false } := by
      unfold synthesizeModel
      simp [h]
    rw [h1, h2]
    exact ⟨rfl, ⟨_, rfl⟩, rfl, ⟨_, rfl⟩, hlast⟩

/-- Witness for the C5 amended theorem at a 5001-character text. -/
theorem oversized_input_gates_witness :
    (speakModel true (some []) (List.replicate 5001 'a')).synthAttempted = false ∧
    (∃ e, (speakModel true (some []) (List.replicate 5001 'a')).result = .error e) ∧
    (synthesizeModel true (some []) (List.replicate 5001 'a')).synthAttempted = false ∧
    (∃ e, (synthesizeModel true (some []) (List.replicate 5001 'a')).result = .error e) ∧
    (synthesizeWithVoiceModel true (some []) (List.replicate 5001 'a')).synthAttempted
      = true :=
  oversized_input_gates true (some []) (List.replicate 5001 'a')
    (by rw [List.length_replicate]; omega)

/-- C6 counterexample: with turn 0 failing synthesis and turn 1 succeeding,
the failed turn still produces a segment file (holding the empty byte
buffer), and the collected results contain BOTH its error marker and its
file path — not "no file", and not "a marker instead of a path". -/
theorem per_turn_failure_counterexample :
    processWrites (fun i => if i = 0 then none else some [1]) (fun _ => true) 0
        [⟨0, chars "a", ⟨chars "VA", 1, chars "en-US"⟩, chars "out.wav"⟩,
         ⟨1, chars "b", ⟨chars "VB", 2, chars "en-US"⟩, chars "out.wav"⟩]
      = [(chars "00_out.wav", []), (chars "01_out.wav", [1])] ∧
    processMsgs (fun i => if i = 0 then none else some [1]) (fun _ => true) 0
        [⟨0, chars "a", ⟨chars "VA", 1, chars "en-US"⟩, chars "out.wav"⟩,
         ⟨1, chars "b", ⟨chars "VB", 2, chars "en-US"⟩, chars "out.wav"⟩]
      = [chars "error goroutine: 0; turn 0; voice: VA",
         chars "00_out.wav", chars "01_out.wav"] := by
  constructor <;> rfl

/-- C6 amended: each goroutine acts on its own synthesis outcome only, so a
failure never aborts the other turns; a turn whose synthesis fails still
writes a segment file containing the empty byte buffer and contributes both
its error marker and its file path to the collected results, while a
successful turn writes its audio bytes and contributes its path. -/
theorem per_turn_failure_isolated (synth : Nat → Option (List Nat))
    (turns : List TurnConfig) (p : Nat) (t : TurnConfig)
    (hget : turns.get? p = some t) :
    (synth p = none →
      errMarker p t ∈ processMsgs synth (fun _ => true) 0 turns ∧
      turnFilename t ∈ processMsgs synth (fun _ => true) 0 turns ∧
      (turnFilename t, ([] : List Nat)) ∈ processWrites synth (fun _ => true) 0 turns) ∧
    (∀ b, synth p = some b →
      turnFilename t ∈ processMsgs synth (fun _ => true) 0 turns ∧
      (turnFilename t, b) ∈ processWrites synth (fun _ => true) 0 turns) := by
  have hm := mem_processMsgs_of_get synth (fun _ => true) turns 0 p t hget
  have hw := mem_processWrites_of_get synth (fun _ => true) turns 0 p t hget
  rw [Nat.zero_add] at hm hw
  constructor
  · intro hnone
    have e1 : errMarker p t ∈ goroutineMsgs synth (fun _ => true) p t := by
      simp [goroutineMsgs, hnone]
    have e2 : turnFilename t ∈ goroutineMsgs synth (fun _ => true) p t := by
      simp [goroutineMsgs, hnone]
    have e3 : (turnFilename t, ([] : List Nat)) ∈
        (goroutineWrite synth (fun _ => true) p t).toList := by
      simp [goroutineWrite, hnone]
    exact ⟨hm _ e1, hm _ e2, hw _ e3⟩
  · intro b hb
    have e2 : turnFilename t ∈ goroutineMsgs synth (fun _ => true) p t := by
      simp [goroutineMsgs, hb]
    have e3 : (turnFilename t, b) ∈ (goroutineWrite synth (fun _ => true) p t).toList := by
      simp [goroutineWrite, hb]
    exact ⟨hm _ e2, hw _ e3⟩

/-- Witness for the C6 amended theorem: a single turn whose synthesis
fails. -/
theorem per_turn_failure_isolated_witness :
    errMarker 0 ⟨0, [], ⟨chars "V", 0, []⟩, chars "o.wav"⟩ ∈
      processMsgs (fun _ => none) (fun _ => true) 0
        [⟨0, [], ⟨chars "V", 0, []⟩, chars "o.wav"⟩] ∧
    turnFilename ⟨0, [], ⟨chars "V", 0, []⟩, chars "o.wav"⟩ ∈
      processMsgs (fun _ => none) (fun _ => true) 0
        [⟨0, [], ⟨chars "V", 0, []⟩, chars "o.wav"⟩] ∧
    (turnFilename ⟨0, [], ⟨chars "V", 0, []⟩, chars "o.wav"⟩, ([] : List Nat)) ∈
      processWrites (fun _ => none) (fun _ => true) 0
        [⟨0, [], ⟨chars "V", 0, []⟩, chars "o.wav"⟩] :=
  (per_turn_failure_isolated (fun _ => none)
    [⟨0, [], ⟨chars "V", 0, []⟩, chars "o.wav"⟩] 0
    ⟨0, [], ⟨chars "V", 0, []⟩, chars "o.wav"⟩ rfl).1 rfl

/-- C8 counterexample: on the empty segment list the combiner fails
precisely by an out-of-bounds access of the first segment's format metadata
(`wavs[0].SamplesPerSec()` panics on the empty slice), contradicting the
claim that no such access is performed. -/
theorem combine_empty_counterexample :
    combineWavFiles (fun _ => none) true [] = .panicIndexOutOfRange := rfl

/-- C8 amended: with zero segments supplied the combine fails as a whole —
it writes no partial combined output and deletes nothing — but the failure
mode is exactly the out-of-bounds access of the first segment's format
metadata. -/
theorem combine_empty_input_panics (readF : List Char → Option WavFile) (writeOk : Bool) :
    combineWavFiles readF writeOk [] = .panicIndexOutOfRange ∧
    combinedFileCount (combineWavFiles readF writeOk []) = 0 ∧
    deletedSegments (combineWavFiles readF writeOk []) = [] :=
  ⟨rfl, rfl, rfl⟩

/-- C7 counterexample: one readable segment, failed write of the combined
output: the combined file does not exist, yet the input segment is deleted
rather than left in place (`os.WriteFile`'s error is ignored and the cleanup
loop runs unconditionally). -/
theorem combine_cleanup_counterexample :
    combinedFileCount (combineWavFiles (fun _ => some ⟨24000, 16, 1, [0, 0]⟩)
        false [chars "00_out.wav"]) = 0 ∧
    deletedSegments (combineWavFiles (fun _ => some ⟨24000, 16, 1, [0, 0]⟩)
        false [chars "00_out.wav"]) = [chars "00_out.wav"] := by
  constructor <;> rfl

/-- C7 amended: once every segment reads successfully the combiner deletes
all input segments regardless of whether the combined-output write
succeeded (the write error is ignored); the combined file exists exactly
when its write succeeded; an unreadable segment aborts the whole combine
and leaves every segment in place. -/
theorem combine_cleanup_behaviour (readF : List Char → Option WavFile)
    (names : List (List Char)) (w0 : WavFile) (ws : List WavFile)
    (hread : readAll readF names = some (w0 :: ws)) :
    (∃ w, combineWavFiles readF true names = .done w true names ∧
      combinedFileCount (combineWavFiles readF true names) = 1 ∧
      deletedSegments (combineWavFiles readF true names) = names) ∧
    (∃ w, combineWavFiles readF false names = .done w false names ∧
      combinedFileCount (combineWavFiles readF false names) = 0 ∧
      deletedSegments (combineWavFiles readF false names) = names) ∧
    (∀ readBad : List Char → Option WavFile, readAll readBad names = none →
      combineWavFiles readBad true names = .fatalRead ∧
      deletedSegments (combineWavFiles readBad true names) = []) := by
  have hc : ∀ wo : Bool, combineWavFiles readF wo names
      = .done ⟨w0.samplesPerSec, w0.bitsPerSample, w0.channels,
          ((w0 :: ws).map WavFile.data).flatten⟩ wo names := by
    intro wo
    unfold combineWavFiles
    rw [hread]
  refine ⟨⟨_, hc true, ?_, ?_⟩, ⟨_, hc false, ?_, ?_⟩, ?_⟩
  · rw [hc true]; rfl
  · rw [hc true]; rfl
  · rw [hc false]; rfl
  · rw [hc false]; rfl
  · intro readBad hbad
    have hf : combineWavFiles readBad true names = .fatalRead := by
      unfold combineWavFiles
      rw [hbad]
    exact ⟨hf, by rw [hf]; rfl⟩

/-- Witness for the C7 amended theorem at one readable segment. -/
theorem combine_cleanup_behaviour_witness :
    ∃ w, combineWavFiles (fun _ => some ⟨24000, 16, 1, [0, 0]⟩) true [chars "a.wav"]
        = .done w true [chars "a.wav"] ∧
      combinedFileCount (combineWavFiles (fun _ => some ⟨24000, 16, 1, [0, 0]⟩)
        true [chars "a.wav"]) = 1 ∧
      deletedSegments (combineWavFiles (fun _ => some ⟨24000, 16, 1, [0, 0]⟩)
        true [chars "a.wav"]) = [chars "a.wav"] :=
  (combine_cleanup_behaviour (fun _ => some ⟨24000, 16, 1, [0, 0]⟩) [chars "a.wav"]
    ⟨24000, 16, 1, [0, 0]⟩ [] rfl).1

/-- C3: for a non-empty list of segments sharing sample rate, bit depth and
channel count (each holding whole sample frames), the combiner produces one
combined waveform whose format equals the first segment's and whose sample
count is the sum of the segments' sample counts. -/
theorem combine_sample_count (readF : List Char → Option WavFile) (writeOk : Bool)
    (names : List (List Char)) (w0 : WavFile) (ws : List WavFile)
    (hread : readAll readF names = some (w0 :: ws))
    (hfmt : ∀ w ∈ w0 :: ws, w.samplesPerSec = w0.samplesPerSec ∧
      w.bitsPerSample = w0.bitsPerSample ∧ w.channels = w0.channels)
    (halign : ∀ w ∈ w0 :: ws, blockAlign w0 ∣ w.data.length) :
    ∃ out, combineWavFiles readF writeOk names = .done out writeOk names ∧
      out.samplesPerSec = w0.samplesPerSec ∧ out.bitsPerSample = w0.bitsPerSample ∧
      out.channels = w0.channels ∧
      numSamples out = ((w0 :: ws).map numSamples).sum := by
  have hc : combineWavFiles readF writeOk names
      = .done ⟨w0.samplesPerSec, w0.bitsPerSample, w0.channels,
          ((w0 :: ws).map WavFile.data).flatten⟩ writeOk names := by
    unfold combineWavFiles
    rw [hread]
  refine ⟨_, hc, rfl, rfl, rfl, ?_⟩
  show (((w0 :: ws).map WavFile.data).flatten).length / blockAlign w0
      = ((w0 :: ws).map numSamples).sum
  rw [List.length_flatten, List.map_map]
  rw [sum_div_of_dvd (blockAlign w0) ((w0 :: ws).map (List.length ∘ WavFile.data))
    (by
      intro x hx
      obtain ⟨w, hw, hwx⟩ := List.mem_map.mp hx
      rw [← hwx]
      exact halign w hw)]
  rw [List.map_map]
  apply congrArg List.sum
  apply List.map_congr_left
  intro w hw
  show w.data.length / blockAlign w0 = numSamples w
  unfold numSamples
  obtain ⟨-, h2, h3⟩ := hfmt w hw
  unfold blockAlign
  rw [h2, h3]

/-- Witness for C3 at one 4-byte 16-bit mono segment (2 sample frames). -/
theorem combine_sample_count_witness :
    ∃ out, combineWavFiles (fun _ => some ⟨8000, 16, 1, [1, 2, 3, 4]⟩) true [chars "a"]
        = .done out true [chars "a"] ∧
      out.samplesPerSec = (⟨8000, 16, 1, [1, 2, 3, 4]⟩ : WavFile).samplesPerSec ∧
      out.bitsPerSample = (⟨8000, 16, 1, [1, 2, 3, 4]⟩ : WavFile).bitsPerSample ∧
      out.channels = (⟨8000, 16, 1, [1, 2, 3, 4]⟩ : WavFile).channels ∧
      numSamples out = (([(⟨8000, 16, 1, [1, 2, 3, 4]⟩ : WavFile)]).map numSamples).sum :=
  combine_sample_count (fun _ => some ⟨8000, 16, 1, [1, 2, 3, 4]⟩) true [chars "a"]
    ⟨8000, 16, 1, [1, 2, 3, 4]⟩ [] rfl (by decide) (by decide)

/-- C1 counterexample: the empty conversation has zero non-empty lines;
turn-by-turn mode correctly produces zero segment files, but the subsequent
combine step then panics on the empty list and writes zero combined output
files — not exactly one. -/
theorem turnbyturn_empty_conversation_counterexample :
    ((splitLines (chars "")).filter (fun l => !l.isEmpty)).length = 0 ∧
    processWrites (fun _ => some []) (fun _ => true) 0
        (configureTurns ⟨chars "VA", 1, chars "en-US"⟩ ⟨chars "VB", 2, chars "en-US"⟩
          (chars "") (chars "out.wav") (cleanTurns (chars ""))) = [] ∧
    combinedFileCount (combineWavFiles (fun _ => some ⟨24000, 16, 1, []⟩) true
        (sortStrings (processMsgs (fun _ => some []) (fun _ => true) 0
          (configureTurns ⟨chars "VA", 1, chars "en-US"⟩ ⟨chars "VB", 2, chars "en-US"⟩
            (chars "") (chars "out.wav") (cleanTurns (chars "")))))) = 0 :=
  ⟨rfl, rfl, rfl⟩

/-- C1 amended (`N ≥ 1`): a conversation with `N ≥ 1` non-empty lines, with
every synthesis call and file write succeeding, yields exactly `N` distinct
segment files from the turn-by-turn pipeline, and the subsequent combine
step over the sorted collected file names writes exactly one combined
output file. -/
theorem turnbyturn_segment_and_combine_counts (vA vB : Voice)
    (tags conv out : List Char) (synth : Nat → Option (List Nat))
    (readF : List Char → Option WavFile) (N : Nat)
    (hN : N = ((splitLines conv).filter (fun l => !l.isEmpty)).length)
    (hN1 : 1 ≤ N)
    (hsynth : ∀ i, (synth i).isSome)
    (hreadF : ∀ f, (readF f).isSome) :
    (processWrites synth (fun _ => true) 0
        (configureTurns vA vB tags out (cleanTurns conv))).length = N ∧
    ((processWrites synth (fun _ => true) 0
        (configureTurns vA vB tags out (cleanTurns conv))).map Prod.fst).Nodup ∧
    combinedFileCount (combineWavFiles readF true
        (sortStrings (processMsgs synth (fun _ => true) 0
          (configureTurns vA vB tags out (cleanTurns conv))))) = 1 := by
  have hwr := processWrites_configure vA vB tags out synth 0 (cleanTurns conv)
  have hmsgs := processMsgs_configure_success vA vB tags out synth hsynth 0 (cleanTurns conv)
  have hcount : (cleanTurns conv).length = N := by
    rw [cleanTurns_length, hN]
  refine ⟨?_, ?_, ?_⟩
  · rw [configureTurns, hwr, List.length_map, List.length_range, hcount]
  · rw [configureTurns, hwr, List.map_map]
    have : (List.range (cleanTurns conv).length).map
          (Prod.fst ∘ fun j => (turnFilenameOf out (0 + j), (synth (0 + j)).getD []))
        = (List.range (cleanTurns conv).length).map (turnFilenameOf out) := by
      apply List.map_congr_left
      intro j _
      show turnFilenameOf out (0 + j) = turnFilenameOf out j
      rw [Nat.zero_add]
    rw [this]
    exact (List.nodup_range _).map (turnFilenameOf_inj out)
  · rw [configureTurns, hmsgs]
    have hnames : (List.range (cleanTurns conv).length).map (fun j => turnFilenameOf out (0 + j))
        = (List.range (cleanTurns conv).length).map (turnFilenameOf out) := by
      apply List.map_congr_left
      intro j _
      rw [Nat.zero_add]
    rw [hnames]
    obtain ⟨l, hl, hlen⟩ := readAll_of_isSome readF hreadF
      (sortStrings ((List.range (cleanTurns conv).length).map (turnFilenameOf out)))
    have hslen : (sortStrings ((List.range (cleanTurns conv).length).map
        (turnFilenameOf out))).length = N := by
      unfold sortStrings
      rw [(List.perm_insertionSort lexLe _).length_eq, List.length_map,
        List.length_range, hcount]
    have hlN : l.length = N := by rw [hlen, hslen]
    cases l with
    | nil => rw [List.length_nil] at hlN; omega
    | cons w lws =>
      have hc : combineWavFiles readF true
          (sortStrings ((List.range (cleanTurns conv).length).map (turnFilenameOf out)))
          = .done ⟨w.samplesPerSec, w.bitsPerSample, w.channels,
              ((w :: lws).map WavFile.data).flatten⟩ true
            (sortStrings ((List.range (cleanTurns conv).length).map (turnFilenameOf out))) := by
        unfold combineWavFiles
        rw [hl]
      rw [hc]
      rfl

/-- Witness for the C1 amended theorem on a two-line conversation. -/
theorem turnbyturn_segment_and_combine_counts_witness :
    (processWrites (fun _ => some [7]) (fun _ => true) 0
        (configureTurns ⟨chars "VA", 1, chars "en-US"⟩ ⟨chars "VB", 2, chars "en-US"⟩
          (chars "") (chars "out.wav") (cleanTurns (chars "a\nb\n")))).length = 2 ∧
    ((processWrites (fun _ => some [7]) (fun _ => true) 0
        (configureTurns ⟨chars "VA", 1, chars "en-US"⟩ ⟨chars "VB", 2, chars "en-US"⟩
          (chars "") (chars "out.wav") (cleanTurns (chars "a\nb\n")))).map Prod.fst).Nodup ∧
    combinedFileCount (combineWavFiles (fun _ => some ⟨24000, 16, 1, [0, 0]⟩) true
        (sortStrings (processMsgs (fun _ => some [7]) (fun _ => true) 0
          (configureTurns ⟨chars "VA", 1, chars "en-US"⟩ ⟨chars "VB", 2, chars "en-US"⟩
            (chars "") (chars "out.wav") (cleanTurns (chars "a\nb\n")))))) = 1 :=
  turnbyturn_segment_and_combine_counts ⟨chars "VA", 1, chars "en-US"⟩
    ⟨chars "VB", 2, chars "en-US"⟩ (chars "") (chars "a\nb\n") (chars "out.wav")
    (fun _ => some [7]) (fun _ => some ⟨24000, 16, 1, [0, 0]⟩) 2 rfl (by omega)
    (fun _ => rfl) (fun _ => rfl)

/-- C10: `Fabulae` returns a `nil` error on every path on which it actually
returns.  In turn-by-turn mode it always returns the sorted collected
result strings (error markers included among them) paired with a `nil`
error; in single-block mode a synthesis or write or read-back failure
terminates the process (`os.Exit`/`log.Fatal`) instead of returning an
error, and the surviving path returns the single output file with a `nil`
error. -/
theorem fabulae_error_always_nil (vA vB : Voice) (conv out tags now : List Char)
    (tbt : Bool) (synth : Nat → Option (List Nat)) (wo : Nat → Bool)
    (blockSynth : Option (List Nat)) (blockWriteOk readBackOk : Bool) :
    (∀ files err,
      fabulaeModel vA vB conv out tbt tags synth wo blockSynth blockWriteOk readBackOk now
        = .returned files err → err = none) ∧
    (tbt = true →
      fabulaeModel vA vB conv out tbt tags synth wo blockSynth blockWriteOk readBackOk now
        = .returned (sortStrings (processMsgs synth wo 0
            (configureTurns vA vB tags (getOutputFilename out now) (cleanTurns conv))))
            none) ∧
    (tbt = false → blockSynth = none →
      fabulaeModel vA vB conv out tbt tags synth wo blockSynth blockWriteOk readBackOk now
        = .exited) := by
  refine ⟨?_, ?_, ?_⟩
  · intro files err h
    unfold fabulaeModel at h
    cases tbt with
    | true =>
      rw [if_pos rfl] at h
      injection h with h1 h2
      exact h2.symm
    | false =>
      rw [if_neg (by simp)] at h
      cases blockSynth with
      | none => exact absurd h (by simp)
      | some b =>
        cases blockWriteOk with
        | false => exact absurd h (by simp)
        | true =>
          cases readBackOk with
          | false => exact absurd h (by simp)
          | true =>
            injection h with h1 h2
            exact h2.symm
  · intro ht
    subst ht
    rfl
  · intro ht hb
    subst ht
    subst hb
    rfl

/-- Witness for C10: a concrete turn-by-turn run returning a `nil` error. -/
theorem fabulae_error_always_nil_witness :
    fabulaeModel ⟨chars "VA", 1, chars "en-US"⟩ ⟨chars "VB", 2, chars "en-US"⟩
        (chars "a\nb") (chars "out.wav") true (chars "") (fun _ => some [])
        (fun _ => true) none true true (chars "ts")
      = .returned (sortStrings (processMsgs (fun _ => some []) (fun _ => true) 0
          (configureTurns ⟨chars "VA", 1, chars "en-US"⟩ ⟨chars "VB", 2, chars "en-US"⟩
            (chars "") (getOutputFilename (chars "out.wav") (chars "ts"))
            (cleanTurns (chars "a\nb"))))) none :=
  (fabulae_error_always_nil ⟨chars "VA", 1, chars "en-US"⟩ ⟨chars "VB", 2, chars "en-US"⟩
    (chars "a\nb") (chars "out.wav") (chars "") (chars "ts") true (fun _ => some [])
    (fun _ => true) none true true).2.1 rfl

end Fabulae
